import Mathlib

/-!
# Verification of the tji-auto content selection and deduplication core

This file is a shallow embedding, in Lean 4, of the selection/deduplication
subsystem of the `tji-auto` repository:

* the four rule-based category scorers and the fallback selector
  (`src/processors/fallback_selector.py`),
* the persistent selection-history store
  (`load_article_history` / `add_to_history` / `is_duplicate_article` /
  `filter_duplicate_articles` in `src/scrapers/webscraptest.py`, and the
  line-for-line identical `load_upskill_history` / `add_to_upskill_history` /
  `filter_previously_selected` in `src/scrapers/upskill_scraper.py`),
* the AI-assisted selection wrappers (`ai_select_content` in
  `src/config/api_manager.py` and `select_best_with_ai` /
  `select_best_internship_fallback` in `src/scrapers/internship_scraper.py`).

Embedding conventions:

* Python strings are Lean `String`s; `str.lower()` / `str.strip()` /
  `str.upper()` are modelled on their character lists for the ASCII range
  (every keyword list and history key prefix in the source is ASCII).
* Python `datetime` values are modelled as integer epoch seconds (`Int`).
  `datetime.fromisoformat` applied to a stored string either succeeds with
  such an integer or fails; a date field or history value is therefore an
  `Option Int`, `none` standing for "absent or unparseable".
* All keyword weights in the source are small integers and `float` addition
  on them is exact, so scores are `Int`.
* Reads of the ambient clock (`datetime.now()`) become an explicit `now`
  parameter; file I/O becomes an explicit `Storage` value threaded through;
  a `try`/`except` block becomes an `Except` value and a `match` on it.
* Outbound Groq API calls are modelled by explicit parameters: whether a key
  is configured, whether client construction succeeds, and the call's result
  (`Except String String`: either an exception or the returned text).
  The prompt text sent out only influences that external result, so it is
  not reconstructed.
* Logging calls and the `timestamp` fields of result records (wall-clock
  strings that no claim mentions) are omitted.
-/

/-! ## ASCII string primitives (Python `lower` / `upper` / `strip` / `in`) -/

/-- ASCII lowercase of one character (Python `str.lower` restricted to ASCII). -/
def lowerChar (c : Char) : Char :=
  if 'A' ≤ c ∧ c ≤ 'Z' then Char.ofNat (c.toNat + 32) else c

/-- ASCII uppercase of one character (Python `str.upper` restricted to ASCII). -/
def upperChar (c : Char) : Char :=
  if 'a' ≤ c ∧ c ≤ 'z' then Char.ofNat (c.toNat - 32) else c

/-- Python `s.lower()`. -/
def lowS (s : String) : String := ⟨s.data.map lowerChar⟩

/-- Python `s.upper()`. -/
def upperS (s : String) : String := ⟨s.data.map upperChar⟩

/-- The whitespace characters removed by Python `str.strip()` (ASCII part). -/
def isPySpace (c : Char) : Bool :=
  c = ' ' || c = '\t' || c = '\n' || c = '\r' || c = Char.ofNat 11 || c = Char.ofNat 12

/-- Python `s.strip()`: drop leading and trailing whitespace. -/
def trimS (s : String) : String :=
  ⟨((s.data.dropWhile isPySpace).reverse.dropWhile isPySpace).reverse⟩

/-- Does the list `l` start with the list `pat`? -/
def startsWithList : List Char → List Char → Bool
  | _, [] => true
  | [], _ :: _ => false
  | c :: cs, p :: ps => c = p && startsWithList cs ps

/-- Does `pat` occur as a contiguous sublist of `l`? -/
def containsList : List Char → List Char → Bool
  | [], pat => pat.isEmpty
  | l@(_ :: cs), pat => startsWithList l pat || containsList cs pat

/-- Python `pat in s` (substring containment). -/
def hasSub (s pat : String) : Bool := containsList s.data pat.data

/-! ## Candidate items

A scraped candidate, per the dictionaries the scrapers hand to the
selection layer: `title` and `url` are read with `.get(..., '')`, `company`
is tested with `'company' in item` so it is optional, `description` is read
with `.get(..., '')`, and `date` is an optional ISO timestamp that is
parsed inside `score_tech_article` (here: already-parsed epoch seconds,
`none` when the field is absent or `fromisoformat` would raise). -/

structure Item where
  title : String := ""
  url : String := ""
  company : Option String := none
  description : String := ""
  date : Option Int := none
  deriving DecidableEq, Repr

/-! ## Category scorers (`src/processors/fallback_selector.py`) -/

/-- One `for keyword in kws: if keyword in hay: score += w` loop,
threading the running score. -/
def scoreKeywords (start : Int) (hay : String) (kws : List String) (w : Int) : Int :=
  kws.foldl (fun acc kw => if hasSub hay kw then acc + w else acc) start

/-- `score_tech_article` from `fallback_selector.py` (lines 19-90).
`now` is the `datetime.now()` read by the recency bonus; the article is
dated (`article.date = some d`) exactly when `'date' in article` holds and
`fromisoformat` succeeds (on failure the source's bare `except: pass`
skips the bonus). `hours_old < 24` over seconds is `now - d < 86400`. -/
def score_tech_article (article : Item) (now : Int) : Int :=
  let title := lowS article.title
  let high_value_keywords := [
    "breakthrough", "innovation", "new", "launch", "release",
    "ai", "artificial intelligence", "machine learning", "deep learning",
    "quantum", "blockchain", "cryptocurrency", "cybersecurity"]
  let medium_value_keywords := [
    "software", "developer", "programming", "coding", "tech",
    "startup", "technology", "algorithm", "data science",
    "cloud", "mobile", "web", "api", "framework"]
  let low_value_keywords := [
    "update", "feature", "tool", "platform", "service",
    "app", "website", "system", "network", "database"]
  let negative_keywords := [
    "opinion", "editorial", "blog", "personal", "drama",
    "controversy", "gossip", "rumor", "politics", "lawsuit"]
  let score := scoreKeywords 0 title high_value_keywords 10
  let score := scoreKeywords score title medium_value_keywords 5
  let score := scoreKeywords score title low_value_keywords 2
  let score := scoreKeywords score title negative_keywords (-10)
  let score :=
    match article.date with
    | some d => if now - d < 86400 then score + 5 else score
    | none => score
  let title_length := title.length
  let score := if 30 ≤ title_length ∧ title_length ≤ 100 then score + 3 else score
  max 0 score

/-- `score_internship` from `fallback_selector.py` (lines 92-157). -/
def score_internship (internship : Item) : Int :=
  let title := lowS internship.title
  let company := lowS (internship.company.getD "")
  let description := lowS internship.description
  let cs_keywords := [
    "software", "developer", "programming", "coding", "computer science",
    "it", "technology", "tech", "web development", "mobile development",
    "data science", "machine learning", "ai", "artificial intelligence"]
  let tech_keywords := [
    "engineer", "analyst", "technical", "digital", "automation",
    "cloud", "database", "api", "frontend", "backend", "fullstack"]
  let tech_companies := [
    "google", "microsoft", "amazon", "apple", "facebook", "meta",
    "netflix", "uber", "airbnb", "spotify", "adobe", "salesforce",
    "oracle", "ibm", "intel", "nvidia", "tesla", "twitter"]
  let suspicious_patterns := [
    "work from home", "earn money", "no experience required",
    "easy money", "part time", "flexible hours", "commission based"]
  let score := scoreKeywords 0 title cs_keywords 15
  let score := scoreKeywords score title tech_keywords 10
  let score := scoreKeywords score company tech_companies 20
  let score := scoreKeywords score description cs_keywords 5
  let score := suspicious_patterns.foldl
    (fun acc p => if hasSub title p || hasSub description p then acc - 15 else acc) score
  max 0 score

/-- `score_job` from `fallback_selector.py` (lines 159-218). -/
def score_job (job : Item) : Int :=
  let title := lowS job.title
  let description := lowS job.description
  let entry_level_titles := [
    "junior", "associate", "entry level", "graduate", "fresher",
    "software engineer", "developer", "analyst", "specialist"]
  let tech_keywords := [
    "software", "programming", "coding", "development", "technical",
    "it", "computer science", "technology", "engineer"]
  let experience_patterns := [
    "0-1 year", "0-2 year", "fresher", "entry level", "graduate",
    "no experience", "fresh graduate"]
  let senior_keywords := [
    "senior", "lead", "principal", "manager", "director",
    "head of", "chief", "vp", "vice president", "5+ years",
    "3+ years", "experienced"]
  let score := scoreKeywords 0 title entry_level_titles 20
  let score := scoreKeywords score title tech_keywords 10
  let score := experience_patterns.foldl
    (fun acc p => if hasSub title p || hasSub description p then acc + 15 else acc) score
  let score := scoreKeywords score title senior_keywords (-25)
  max 0 score

/-- `score_upskill_article` from `fallback_selector.py` (lines 220-270). -/
def score_upskill_article (article : Item) : Int :=
  let title := lowS article.title
  let learning_keywords := [
    "tutorial", "guide", "how to", "learn", "beginner",
    "step by step", "complete guide", "introduction to",
    "getting started", "best practices"]
  let tech_keywords := [
    "python", "javascript", "react", "node.js", "java", "c++",
    "machine learning", "data science", "web development",
    "mobile development", "cloud computing", "docker", "kubernetes"]
  let project_keywords := [
    "project", "build", "create", "implement", "develop",
    "portfolio", "hands-on", "practical", "example"]
  let score := scoreKeywords 0 title learning_keywords 15
  let score := scoreKeywords score title tech_keywords 10
  let score := scoreKeywords score title project_keywords 12
  let score :=
    if ["how", "what", "why", "when", "where"].any (fun w => hasSub title w)
    then score + 5 else score
  max 0 score

/-- The `if`/`elif` dispatch on `item_type` inside `fallback_select_best`
(unknown types score 0). -/
def scoreFor (item_type : String) (item : Item) (now : Int) : Int :=
  if item_type = "tech_news" then score_tech_article item now
  else if item_type = "internship" then score_internship item
  else if item_type = "job" then score_job item
  else if item_type = "upskill" then score_upskill_article item
  else 0

/-! ## The fallback selector (`fallback_select_best`, lines 272-310)

Python's `list.sort(key=lambda x: x[0], reverse=True)` is a stable sort:
elements with equal keys keep their original relative order, and
`reverse=True` reverses the comparison, not the list. A stable descending
sort is a function of the multiset of (key, original position) pairs, so
any stable descending sort computes the same list; we embed it as an
insertion sort that inserts each element before the first element whose
key it weakly exceeds (which is exactly stability: an earlier element
lands before every equal-key later element). -/

/-- Insert one scored pair into a descending-sorted list, before the first
entry whose score it weakly exceeds. -/
def orderedInsertDesc (x : Int × Item) : List (Int × Item) → List (Int × Item)
  | [] => [x]
  | y :: ys => if x.1 ≥ y.1 then x :: y :: ys else y :: orderedInsertDesc x ys

/-- Stable descending sort by score: `scored_items.sort(key=..., reverse=True)`. -/
def sortDesc : List (Int × Item) → List (Int × Item)
  | [] => []
  | x :: xs => orderedInsertDesc x (sortDesc xs)

/-- The first entry attaining the maximal score (the head a stable
descending sort produces); used as a specification for `sortDesc`. -/
def firstMax : List (Int × Item) → Option (Int × Item)
  | [] => none
  | x :: xs =>
    match firstMax xs with
    | none => some x
    | some y => if x.1 ≥ y.1 then some x else some y

/-- `fallback_select_best` from `fallback_selector.py` (lines 272-310):
score every item, stable-sort descending, return the head item; `None`
(here `none`) on an empty input list. -/
def fallback_select_best (items : List Item) (item_type : String) (now : Int) :
    Option Item :=
  match items with
  | [] => none
  | _ :: _ =>
    let scored_items := items.map (fun item => (scoreFor item_type item now, item))
    match (sortDesc scored_items).head? with
    | some best => some best.2
    | none => none

/-! ## Selection results (`api_manager.py` and `fallback_selector.py`) -/

/-- The result dictionaries produced by `ai_select_content` and
`create_fallback_selection_result`, flattened into one record: a key absent
from a given dictionary is `none` here. The source's `timestamp` values are
omitted (see the header). -/
structure SelResult where
  title : Option String := none
  url : Option String := none
  company : Option String := none
  selection_method : String
  selection_reasoning : Option String := none
  ai_reasoning : Option String := none
  ai_selection : Option Bool := none
  message : Option String := none
  status : Option String := none
  deriving DecidableEq, Repr

/-- `create_fallback_selection_result` from `fallback_selector.py`
(lines 312-333). -/
def create_fallback_selection_result (item : Item) (item_type : String)
    (total_items : Nat) : SelResult :=
  { title := some item.title
    url := some item.url
    company := item.company
    selection_method := "fallback_algorithm"
    selection_reasoning := some ("Selected using rule-based scoring algorithm from "
      ++ toString total_items ++ " " ++ item_type ++ " items")
    ai_selection := some false }

/-! ## History store (`webscraptest.py` lines 320-446;
`upskill_scraper.py` lines 955-1065 are textually identical apart from the
file path, the log wording, and the returned pair shape of the filter)

A loaded history dictionary maps string fingerprints to stored date
strings; a stored value is modelled as `some t` when
`datetime.fromisoformat` would parse it to epoch seconds `t` and `none`
when it would raise `ValueError`/`TypeError`. Python dictionaries keep
insertion order and unique keys, so the mapping is an association list,
updated in place on an existing key and appended to otherwise. -/

abbrev HistMap : Type := List (String × Option Int)

/-- Python `history[k]` lookup (first matching key). -/
def lookupKey : HistMap → String → Option (Option Int)
  | [], _ => none
  | (k, v) :: rest, key => if k = key then some v else lookupKey rest key

/-- Python `k in history`. -/
def containsKey (m : HistMap) (key : String) : Bool := (lookupKey m key).isSome

/-- Python `history[k] = v`: update in place, or append a new entry. -/
def insertKey : HistMap → String → Option Int → HistMap
  | [], key, v => [(key, v)]
  | (k, w) :: rest, key, v =>
    if k = key then (key, v) :: rest else (k, w) :: insertKey rest key v

/-- The cleaning loop of `load_article_history`: keep an entry exactly when
its value parses to a date `t` with `t ≥ cutoff`; entries whose value fails
to parse are skipped. -/
def pruneHistory (m : HistMap) (cutoff : Int) : HistMap :=
  m.filter (fun kv =>
    match kv.2 with
    | some t => cutoff ≤ t
    | none => false)

/-- The states the history file can be in when `load_article_history`
runs: absent, present but unreadable (`open` raises), present with corrupt
contents (`json.load` raises), or present with a parsed mapping. -/
inductive Storage where
  | missing
  | unreadable
  | corrupt
  | content (m : HistMap)
  deriving DecidableEq, Repr

/-- `HISTORY_DAYS = 30` (`webscraptest.py` line 323). -/
def HISTORY_DAYS : Int := 30

/-- The `try` body of `load_article_history` (`webscraptest.py` lines
324-360): returns the cleaned mapping and the storage left behind, or the
exception the body raises. The cleaned mapping is written back only when
entries were removed; since cleaning only removes entries, an unchanged
length means an unchanged mapping, so the resulting storage content is the
cleaned mapping either way. -/
def load_history_body : Storage → Int → Except String (HistMap × Storage)
  | .missing, _ => .ok ([], .missing)
  | .unreadable, _ => .error "IOError"
  | .corrupt, _ => .error "JSONDecodeError"
  | .content m, cutoff =>
    let cleaned := pruneHistory m cutoff
    if cleaned.length ≠ m.length then .ok (cleaned, .content cleaned)
    else .ok (cleaned, .content m)

/-- `load_article_history` (`webscraptest.py` lines 324-360, equally
`load_upskill_history`): the `try` body with its enclosing
`except Exception: return {}` (which leaves storage untouched). `cutoff`
is the `datetime.now() - timedelta(days=HISTORY_DAYS)` the body computes. -/
def load_article_history (s : Storage) (cutoff : Int) : HistMap × Storage :=
  match load_history_body s cutoff with
  | .ok r => r
  | .error _ => ([], s)

/-- The `title:<lowercased, stripped title>` fingerprint key. -/
def titleKey (a : Item) : String := "title:" ++ trimS (lowS a.title)

/-- The `url:<lowercased, stripped url>` fingerprint key. -/
def urlKey (a : Item) : String := "url:" ++ trimS (lowS a.url)

/-- `add_to_history` (`webscraptest.py` lines 376-397, equally
`add_to_upskill_history`): reload (and thereby prune) the history, write
the title key and the url key with the current timestamp, and save the
result immediately. Returns the saved mapping and the storage after the
save. `now` stands for both `datetime.now()` reads of the call (one for
the cutoff inside the load, one for the recorded timestamp). -/
def add_to_history (s : Storage) (article : Item) (now : Int) : HistMap × Storage :=
  let history := (load_article_history s (now - HISTORY_DAYS * 86400)).1
  let history := insertKey history (titleKey article) (some now)
  let history := insertKey history (urlKey article) (some now)
  (history, .content history)

/-- `is_duplicate_article` (`webscraptest.py` lines 399-423), with the
loaded history passed in (the source reloads it from storage for each
article). -/
def is_duplicate_article (history : HistMap) (article : Item) : Bool :=
  containsKey history (titleKey article) || containsKey history (urlKey article)

/-- `filter_duplicate_articles` (`webscraptest.py` lines 425-446): keep the
non-duplicates in order and count the duplicates. -/
def filter_duplicate_articles (history : HistMap) : List Item → List Item × Nat
  | [] => ([], 0)
  | article :: rest =>
    let r := filter_duplicate_articles history rest
    if is_duplicate_article history article then (r.1, r.2 + 1)
    else (article :: r.1, r.2)

/-- `filter_previously_selected` (`upskill_scraper.py` lines 1030-1065):
an empty history short-circuits to the input list; otherwise keep the
articles neither of whose fingerprint keys is in the history. -/
def filter_previously_selected (history : HistMap) (articles : List Item) : List Item :=
  if history.isEmpty then articles
  else articles.filter (fun article =>
    !(containsKey history (titleKey article) || containsKey history (urlKey article)))

/-! ## AI-assisted selection wrappers

The external Groq interaction is parameterised: `api_available` models
`api_manager.is_api_available()` (a key is configured), `clientOk` models
`get_client()` returning a client rather than `None` (its own exception is
caught inside `get_client`), and `aiResponse` is the outcome of the
`client.chat.completions.create` call plus response-field access:
`.ok text` is the returned message content, `.error e` any raised
exception (missing key at call time, network failure, malformed response,
rate limit). -/

/-- `ai_select_content` from `src/config/api_manager.py` (lines 109-203).
The AI branch runs only when the API is available and a client was
obtained; an exact (stripped) title match returns an `ai` result; a missed
match or a raised exception falls through to the fallback section, which
wraps `fallback_select_best`. The source's last-resort `except` around the
fallback section guards only `import`/logging failures, which have no
counterpart in this embedding. -/
def ai_select_content (api_available clientOk : Bool)
    (aiResponse : Except String String) (items : List Item)
    (content_type : String) (now : Int) : SelResult :=
  match items with
  | [] =>
    { selection_method := "none"
      message := some ("No " ++ content_type ++ " items to analyze")
      status := some "no_content" }
  | _ :: _ =>
    let aiPick : Option SelResult :=
      if api_available && clientOk then
        match aiResponse with
        | .error _ => none
        | .ok content =>
          let selected_title := trimS content
          match items.find? (fun item => trimS item.title == trimS selected_title) with
          | some item =>
            some { title := some item.title
                   url := some item.url
                   company := item.company
                   selection_method := "ai"
                   ai_reasoning := some ("Selected by AI from "
                     ++ toString items.length ++ " options") }
          | none => none
      else none
    match aiPick with
    | some r => r
    | none =>
      match fallback_select_best items content_type now with
      | some best => create_fallback_selection_result best content_type items.length
      | none =>
        { selection_method := "fallback_failed"
          message := some ("No suitable " ++ content_type ++ " found")
          status := some "no_content" }

/-- A result of the internship selection functions in
`src/scrapers/internship_scraper.py`: either a chosen internship
dictionary (a copy of the item with bookkeeping keys added) or a
message-only dictionary. -/
structure InternshipResult where
  item : Option Item := none
  ai_reasoning : Option String := none
  selection_method : Option String := none
  message : Option String := none
  deriving DecidableEq, Repr

/-- `select_best_internship_fallback` from `internship_scraper.py`
(lines 1281-1320): wraps `fallback_select_best(internships, 'internship')`.
Its `except` branches (import failure, then a `priority_score` maximum)
are dead in this embedding because the wrapped call cannot raise and
returns `some` on every non-empty list, so the impossible branch is mapped
to a message result. -/
def select_best_internship_fallback (internships : List Item) (now : Int) :
    InternshipResult :=
  match internships with
  | [] =>
    { message := some "No internships to analyze"
      selection_method := some "fallback_failed" }
  | _ :: _ =>
    match fallback_select_best internships "internship" now with
    | some best =>
      { item := some best
        ai_reasoning := some "Selected using rule-based fallback algorithm"
        selection_method := some "fallback_algorithm" }
    | none => { message := some "unreachable" }

/-- `select_best_with_ai` from `internship_scraper.py` (lines 1173-1279).
`hasApiKey` models `os.getenv('GROQ_API_KEY', GROQ_API_KEY)` being
non-empty, `clientOk` the inner `Groq(api_key=...)` construction
succeeding (its `except` delegates to the rule-based fallback), and
`aiResponse` the API call: on a raised exception the outer handler (lines
1268-1279) returns a copy of the FIRST internship, not the rule-based
pick. On a response, `"NONE"` yields a message result, a case-insensitive
substring match in either direction yields that internship, and a missed
match yields the first internship. `save_seen_internship` side effects are
not modelled (no claim mentions them). -/
def select_best_with_ai (hasApiKey clientOk : Bool)
    (aiResponse : Except String String) (internships : List Item) (now : Int) :
    InternshipResult :=
  match internships with
  | [] =>
    { message := some "No internships to analyze" }
  | first :: _ =>
    if !hasApiKey then select_best_internship_fallback internships now
    else if !clientOk then select_best_internship_fallback internships now
    else
      match aiResponse with
      | .error _ =>
        { item := some first
          ai_reasoning := some "Fallback selection (AI failed)" }
      | .ok content =>
        let selected_title := trimS content
        if upperS selected_title = "NONE" then
          { message := some "No suitable internships found matching criteria" }
        else
          match internships.find? (fun internship =>
              hasSub (lowS internship.title) (lowS selected_title)
              || hasSub (lowS selected_title) (lowS internship.title)) with
          | some internship =>
            { item := some internship
              ai_reasoning := some "Selected by AI as most valuable and legitimate opportunity" }
          | none =>
            { item := some first
              ai_reasoning := some "Fallback selection (AI choice not found)" }

/-! ## Lemmas about the stable descending sort -/

theorem head_orderedInsertDesc (x : Int × Item) (l : List (Int × Item)) :
    (orderedInsertDesc x l).head? =
      some (match l.head? with
            | none => x
            | some y => if x.1 ≥ y.1 then x else y) := by
  cases l with
  | nil => rfl
  | cons y ys => by_cases h : x.1 ≥ y.1 <;> simp [orderedInsertDesc, h]

theorem head_sortDesc (l : List (Int × Item)) : (sortDesc l).head? = firstMax l := by
  induction l with
  | nil => rfl
  | cons x xs ih =>
    simp only [sortDesc, head_orderedInsertDesc, ih, firstMax]
    cases h : firstMax xs with
    | none => rfl
    | some y => by_cases hge : x.1 ≥ y.1 <;> simp [hge]

theorem firstMax_eq_none (l : List (Int × Item)) : firstMax l = none ↔ l = [] := by
  cases l with
  | nil => simp [firstMax]
  | cons x xs =>
    simp only [firstMax]
    cases h : firstMax xs with
    | none => simp
    | some y => by_cases hge : x.1 ≥ y.1 <;> simp [hge]

theorem firstMax_decomp (l : List (Int × Item)) (r : Int × Item)
    (h : firstMax l = some r) :
    ∃ l₁ l₂, l = l₁ ++ r :: l₂ ∧ (∀ z ∈ l₁, z.1 < r.1) ∧ ∀ z ∈ l, z.1 ≤ r.1 := by
  induction l generalizing r with
  | nil => simp [firstMax] at h
  | cons x xs ih =>
    simp only [firstMax] at h
    cases hx : firstMax xs with
    | none =>
      rw [hx] at h
      obtain rfl : x = r := Option.some.inj h
      obtain rfl : xs = [] := (firstMax_eq_none xs).1 hx
      exact ⟨[], [], rfl, by simp, by simp⟩
    | some y =>
      rw [hx] at h
      have h2 : (if x.1 ≥ y.1 then some x else some y) = some r := h
      obtain ⟨l₁, l₂, heq, hlt, hle⟩ := ih y hx
      by_cases hge : x.1 ≥ y.1
      · rw [if_pos hge] at h2
        obtain rfl : x = r := Option.some.inj h2
        refine ⟨[], xs, rfl, by simp, ?_⟩
        intro z hz
        rcases List.mem_cons.1 hz with rfl | hz2
        · exact le_refl _
        · exact (hle z hz2).trans hge
      · rw [if_neg hge] at h2
        obtain rfl : y = r := Option.some.inj h2
        push_neg at hge
        refine ⟨x :: l₁, l₂, by rw [heq]; rfl, ?_, ?_⟩
        · intro z hz
          rcases List.mem_cons.1 hz with rfl | hz2
          · exact hge
          · exact hlt z hz2
        · intro z hz
          rcases List.mem_cons.1 hz with rfl | hz2
          · exact le_of_lt hge
          · exact hle z hz2

theorem firstMax_mem (l : List (Int × Item)) (r : Int × Item)
    (h : firstMax l = some r) : r ∈ l := by
  obtain ⟨l₁, l₂, heq, _, _⟩ := firstMax_decomp l r h
  rw [heq]
  simp

/-- Two ways of splitting one list around an element that fails a predicate
satisfied by everything before it single out the same element. -/
theorem append_cons_eq_of_forall {α : Type} (P : α → Prop) :
    ∀ (l₁ l₂ : List α) (a b : α) (t₁ t₂ : List α),
      l₁ ++ a :: t₁ = l₂ ++ b :: t₂ →
      (∀ z ∈ l₁, P z) → (∀ z ∈ l₂, P z) → ¬ P a → ¬ P b → a = b := by
  intro l₁
  induction l₁ with
  | nil =>
    intro l₂ a b t₁ t₂ heq _ h₂ ha _
    cases l₂ with
    | nil => exact ((List.cons_eq_cons).1 heq).1
    | cons c cs =>
      have hac : a = c := ((List.cons_eq_cons).1 heq).1
      exact absurd (hac ▸ h₂ c (List.mem_cons_self c cs)) ha
  | cons c cs ih =>
    intro l₂ a b t₁ t₂ heq h₁ h₂ ha hb
    cases l₂ with
    | nil =>
      have hcb : c = b := ((List.cons_eq_cons).1 heq).1
      exact absurd (hcb ▸ h₁ c (List.mem_cons_self c cs)) hb
    | cons d ds =>
      exact ih ds a b t₁ t₂ ((List.cons_eq_cons).1 heq).2
        (fun z hz => h₁ z (List.mem_cons_of_mem _ hz))
        (fun z hz => h₂ z (List.mem_cons_of_mem _ hz)) ha hb

theorem fallback_select_best_cons (x : Item) (xs : List Item) (t : String) (now : Int) :
    fallback_select_best (x :: xs) t now
      = Option.map (fun p => p.2)
          (firstMax ((x :: xs).map (fun item => (scoreFor t item now, item)))) := by
  simp only [fallback_select_best, ← head_sortDesc]
  cases h : (sortDesc ((x :: xs).map (fun item => (scoreFor t item now, item)))).head? <;>
    simp [h]

theorem fallback_select_best_isSome (x : Item) (xs : List Item) (t : String) (now : Int) :
    ∃ b, fallback_select_best (x :: xs) t now = some b := by
  rw [fallback_select_best_cons]
  cases h : firstMax ((x :: xs).map (fun item => (scoreFor t item now, item))) with
  | none => exact absurd ((firstMax_eq_none _).1 h) (by simp)
  | some r => exact ⟨r.2, by simp⟩

/-- The selected item is the first one attaining the maximal score. -/
theorem fallback_first_max (items : List Item) (t : String) (now : Int)
    (pre post : List Item) (x : Item)
    (hitems : items = pre ++ x :: post)
    (hmax : ∀ z ∈ items, scoreFor t z now ≤ scoreFor t x now)
    (hfirst : ∀ z ∈ pre, scoreFor t z now < scoreFor t x now) :
    fallback_select_best items t now = some x := by
  subst hitems
  have hxmem : x ∈ pre ++ x :: post := by simp
  rcases hcons : pre ++ x :: post with _ | ⟨a, as⟩
  · simp [hcons] at hxmem
  · rw [← hcons]
    have hrw : fallback_select_best (pre ++ x :: post) t now
        = Option.map (fun p => p.2)
            (firstMax ((pre ++ x :: post).map (fun item => (scoreFor t item now, item)))) := by
      rw [hcons]
      exact fallback_select_best_cons a as t now
    rw [hrw]
    set f : Item → Int × Item := fun item => (scoreFor t item now, item) with hf
    cases hfm : firstMax ((pre ++ x :: post).map f) with
    | none =>
      have := (firstMax_eq_none _).1 hfm
      simp at this
    | some r =>
      obtain ⟨s₁, s₂, hseq, hslt, hsle⟩ := firstMax_decomp _ r hfm
      have hrmem : r ∈ (pre ++ x :: post).map f := firstMax_mem _ r hfm
      obtain ⟨z, hz, hzr⟩ := List.mem_map.1 hrmem
      have hr1 : r.1 = scoreFor t x now := by
        apply le_antisymm
        · rw [← hzr]
          exact hmax z hz
        · have hfx : f x ∈ (pre ++ x :: post).map f := List.mem_map_of_mem f hxmem
          exact hsle (f x) hfx
      have hsplit : s₁ ++ r :: s₂ = (pre.map f) ++ (f x) :: (post.map f) := by
        rw [← hseq]
        simp
      have hrfx : r = f x := by
        apply append_cons_eq_of_forall (fun z : Int × Item => z.1 < scoreFor t x now)
          s₁ (pre.map f) r (f x) s₂ (post.map f) hsplit
        · intro w hw
          have := hslt w hw
          rw [hr1] at this
          exact this
        · intro w hw
          obtain ⟨p, hp, hpw⟩ := List.mem_map.1 hw
          rw [← hpw]
          exact hfirst p hp
        · rw [hr1]
          exact lt_irrefl _
        · exact lt_irrefl _
      rw [hrfx]
      rfl

/-! ## Lemmas about the history store -/

theorem lookupKey_insertKey_self (m : HistMap) (k : String) (v : Option Int) :
    lookupKey (insertKey m k v) k = some v := by
  induction m with
  | nil => simp [insertKey, lookupKey]
  | cons kv rest ih =>
    obtain ⟨k0, v0⟩ := kv
    by_cases h : k0 = k <;> simp [insertKey, lookupKey, h, ih]

theorem lookupKey_insertKey_ne (m : HistMap) (k k2 : String) (v : Option Int)
    (h : k2 ≠ k) :
    lookupKey (insertKey m k v) k2 = lookupKey m k2 := by
  have hk : k ≠ k2 := fun hh => h hh.symm
  induction m with
  | nil => simp [insertKey, lookupKey, hk]
  | cons kv rest ih =>
    obtain ⟨k0, v0⟩ := kv
    by_cases h0 : k0 = k
    · subst h0
      simp [insertKey, lookupKey, hk]
    · by_cases h2 : k0 = k2
      · subst h2
        simp [insertKey, lookupKey, h0]
      · simp [insertKey, lookupKey, h0, h2, ih]

theorem containsKey_insertKey (m : HistMap) (k k2 : String) (v : Option Int)
    (h : containsKey (insertKey m k v) k2 = true) :
    containsKey m k2 = true ∨ k2 = k := by
  by_cases hk : k2 = k
  · exact Or.inr hk
  · left
    rw [containsKey, ← lookupKey_insertKey_ne m k k2 v hk]
    exact h

theorem titleKey_ne_urlKey (a : Item) : titleKey a ≠ urlKey a := by
  intro h
  have h1 : (titleKey a).data.head? = some 't' := rfl
  have h2 : (urlKey a).data.head? = some 'u' := rfl
  rw [h, h2] at h1
  exact absurd h1 (by decide)

theorem filter_idem {α : Type} (p : α → Bool) (l : List α) :
    (l.filter p).filter p = l.filter p := by
  induction l with
  | nil => rfl
  | cons x xs ih => by_cases h : p x <;> simp [List.filter_cons, h, ih]

theorem filter_length_eq {α : Type} (p : α → Bool) (l : List α)
    (h : (l.filter p).length = l.length) : l.filter p = l := by
  induction l with
  | nil => rfl
  | cons x xs ih =>
    by_cases hx : p x
    · simp only [List.filter_cons, if_pos hx, List.length_cons] at h ⊢
      rw [ih (Nat.succ_injective h)]
    · exfalso
      simp only [List.filter_cons, if_neg hx, List.length_cons] at h
      have := List.length_filter_le p xs
      omega

theorem pruneHistory_idem (m : HistMap) (c : Int) :
    pruneHistory (pruneHistory m c) c = pruneHistory m c :=
  filter_idem _ m

theorem load_content_fst (m : HistMap) (c : Int) :
    (load_article_history (.content m) c).1 = pruneHistory m c := by
  by_cases h : (pruneHistory m c).length ≠ m.length <;>
    simp [load_article_history, load_history_body, h]

theorem load_content_snd (m : HistMap) (c : Int) :
    (load_article_history (.content m) c).2 = .content (pruneHistory m c) := by
  by_cases h : (pruneHistory m c).length ≠ m.length
  · simp [load_article_history, load_history_body, h]
  · have hlen : (pruneHistory m c).length = m.length := by
      by_contra hc
      exact h hc
    have he : pruneHistory m c = m := filter_length_eq _ m hlen
    simp [load_article_history, load_history_body, h, he]

/-! ## Concrete items used by witnesses and counterexamples -/

/-- An upskill article whose title carries learning keywords. -/
def wUpItem : Item := { title := "learn python tutorial", url := "w1" }

/-- An item whose title matches no keyword list. -/
def wPlainA : Item := { title := "aaa", url := "wa" }

/-- A second item whose title matches no keyword list. -/
def wPlainB : Item := { title := "bbb", url := "wb" }

/-- An internship title with no CS/IT keyword (scores 0). -/
def iSales : Item := { title := "sales executive", url := "u1" }

/-- An internship title with CS/IT keywords (scores 30). -/
def iDev : Item := { title := "software developer intern", url := "u2" }

/-- A tech article carrying a parseable date (epoch second 0). -/
def artDated : Item := { title := "x", url := "u", date := some 0 }

/-! ## Claim C2 (corrected): scorer determinism / purity -/

/-- Claim C2, counterexample: `score_tech_article` is not a pure function
of its argument alone. Its recency bonus reads `datetime.now()`, so two
runs on the same dated article, one hour versus ten days after the
article's date, return different scores (5 versus 0). -/
theorem score_tech_article_clock_counterexample :
    score_tech_article artDated 3600 ≠ score_tech_article artDated 864000 := by
  decide

/-- Claim C2 (amended): for a fixed reading of the clock each scorer is a
deterministic function of its inputs, and scoring is independent of the
clock in every case except the tech-news recency bonus: for any category
other than `tech_news`, and for `tech_news` items without a parseable
date, two runs at different times agree. -/
theorem scoreFor_deterministic (t : String) (a : Item) (n1 n2 : Int)
    (h : t = "tech_news" → a.date = none) :
    scoreFor t a n1 = scoreFor t a n2 := by
  by_cases ht : t = "tech_news"
  · subst ht
    have hd : a.date = none := h rfl
    simp [scoreFor, score_tech_article, hd]
  · simp [scoreFor, ht]

/-- Witness for the amended C2 at a concrete dateless article. -/
theorem scoreFor_deterministic_witness :
    scoreFor "tech_news" wPlainA 0 = scoreFor "tech_news" wPlainA 12345 :=
  scoreFor_deterministic "tech_news" wPlainA 0 12345 (fun _ => rfl)

/-! ## Claim C3 (confirmed): the selected item is a member of the input -/

/-- Claim C3: for every candidate list and item type,
`fallback_select_best` returns `none` exactly on the empty list, and any
item it returns is a member of the input list (no fabricated item). -/
theorem fallback_select_best_membership (items : List Item) (t : String) (now : Int) :
    (fallback_select_best items t now = none ↔ items = [])
  ∧ ∀ x : Item, fallback_select_best items t now = some x → x ∈ items := by
  cases items with
  | nil =>
    constructor
    · simp [fallback_select_best]
    · intro x hx
      simp [fallback_select_best] at hx
  | cons y ys =>
    obtain ⟨b, hb⟩ := fallback_select_best_isSome y ys t now
    constructor
    · rw [hb]
      simp
    · intro x hx
      rw [fallback_select_best_cons] at hx
      cases hfm : firstMax ((y :: ys).map (fun item => (scoreFor t item now, item))) with
      | none =>
        rw [hfm] at hx
        simp at hx
      | some r =>
        rw [hfm] at hx
        simp at hx
        obtain ⟨z, hz, hzr⟩ := List.mem_map.1 (firstMax_mem _ r hfm)
        rw [← hx, ← hzr]
        exact hz

/-- Witness for C3: on a concrete singleton list the selected item is in
the list. -/
theorem fallback_select_best_membership_witness :
    wUpItem ∈ [wUpItem] :=
  (fallback_select_best_membership [wUpItem] "upskill" 0).2 wUpItem rfl

/-! ## Claim C5 (confirmed): stable sort means first-seen wins ties -/

/-- Claim C5: if the input list contains items `x` (earlier) and `y`
(later) with identical scores, `x`'s score is maximal, and nothing before
`x` ties it, then `fallback_select_best` selects `x`, the one appearing
earlier: the descending sort is stable, so input order decides ties. -/
theorem fallback_tie_break (t : String) (now : Int) (pre mid post : List Item)
    (x y : Item)
    (heq : scoreFor t x now = scoreFor t y now)
    (hmax : ∀ z ∈ pre ++ x :: mid ++ y :: post, scoreFor t z now ≤ scoreFor t x now)
    (hfirst : ∀ z ∈ pre, scoreFor t z now < scoreFor t x now) :
    fallback_select_best (pre ++ x :: mid ++ y :: post) t now = some x :=
  fallback_first_max (pre ++ x :: mid ++ y :: post) t now pre (mid ++ y :: post) x
    (by simp) hmax hfirst

/-- Witness for C5: two concrete zero-scoring items; the earlier wins. -/
theorem fallback_tie_break_witness :
    fallback_select_best ([] ++ wPlainA :: [] ++ wPlainB :: []) "internship" 0
      = some wPlainA :=
  fallback_tie_break "internship" 0 [] [] [] wPlainA wPlainB
    (by decide) (by decide) (by decide)

/-! ## Claim C7 (confirmed): scores are clamped at zero -/

/-- Claim C7: every category scorer returns a score that is at least 0:
the final `max(0, score)` clamp means no negative score surfaces, even
when penalties outweigh all bonuses. -/
theorem scorers_nonneg (a : Item) (now : Int) :
    0 ≤ score_tech_article a now ∧ 0 ≤ score_internship a
  ∧ 0 ≤ score_job a ∧ 0 ≤ score_upskill_article a :=
  ⟨le_max_left 0 _, le_max_left 0 _, le_max_left 0 _, le_max_left 0 _⟩

/-! ## Claim C10 (confirmed): unknown item types score 0, first item wins -/

/-- Claim C10: for a non-empty candidate list and an `item_type` that is
none of the four known categories, every item scores 0, so the stable
sort leaves the list unchanged and `fallback_select_best` returns the
first input item rather than rejecting the unknown category. -/
theorem fallback_unknown_type (t : String) (now : Int) (x : Item) (xs : List Item)
    (h1 : t ≠ "tech_news") (h2 : t ≠ "internship") (h3 : t ≠ "job") (h4 : t ≠ "upskill") :
    (∀ z ∈ x :: xs, scoreFor t z now = 0)
  ∧ fallback_select_best (x :: xs) t now = some x := by
  have hscore : ∀ z : Item, scoreFor t z now = 0 := by
    intro z
    simp [scoreFor, h1, h2, h3, h4]
  refine ⟨fun z _ => hscore z, ?_⟩
  refine fallback_first_max (x :: xs) t now [] xs x rfl ?_ ?_
  · intro z _
    rw [hscore z, hscore x]
  · intro z hz
    simp at hz

/-- Witness for C10 at the unknown category string `news`. -/
theorem fallback_unknown_type_witness :
    fallback_select_best [wPlainA, wPlainB] "news" 0 = some wPlainA :=
  (fallback_unknown_type "news" 0 wPlainA [wPlainB]
    (by decide) (by decide) (by decide) (by decide)).2

/-! ## Claim C4 (confirmed): history filtering excludes either-key matches -/

theorem filter_duplicate_articles_fst (history : HistMap) (l : List Item) :
    (filter_duplicate_articles history l).1
      = l.filter (fun x => !is_duplicate_article history x) := by
  induction l with
  | nil => rfl
  | cons x xs ih =>
    cases h : is_duplicate_article history x <;>
      simp [filter_duplicate_articles, List.filter_cons, h, ih]

/-- Claim C4: an item is kept by the duplicate filters exactly when it is
an input item and NEITHER its normalized title key NOR its normalized url
key is present in the loaded history; so presence of either key alone
excludes it. Stated for both implementations,
`filter_duplicate_articles` (webscraptest) and
`filter_previously_selected` (upskill_scraper). -/
theorem history_filter_excludes (history : HistMap) (articles : List Item) (a : Item) :
    (a ∈ (filter_duplicate_articles history articles).1
      ↔ a ∈ articles
        ∧ (containsKey history (titleKey a) || containsKey history (urlKey a)) = false)
  ∧ (a ∈ filter_previously_selected history articles
      ↔ a ∈ articles
        ∧ (containsKey history (titleKey a) || containsKey history (urlKey a)) = false) := by
  have hmem : ∀ l : List Item,
      a ∈ l.filter (fun x =>
          !(containsKey history (titleKey x) || containsKey history (urlKey x)))
        ↔ a ∈ l
          ∧ (containsKey history (titleKey a) || containsKey history (urlKey a)) = false := by
    intro l
    rw [List.mem_filter]
    simp
  constructor
  · rw [filter_duplicate_articles_fst]
    exact hmem articles
  · by_cases hemp : history.isEmpty = true
    · have h0 : history = [] := by
        cases history with
        | nil => rfl
        | cons kv rest => simp [List.isEmpty] at hemp
      subst h0
      simp [filter_previously_selected, containsKey, lookupKey]
    · simp only [filter_previously_selected]
      rw [if_neg hemp]
      exact hmem articles

/-! ## Claim C6 (confirmed): pruning on load is idempotent -/

/-- Claim C6: loading the history twice in succession with no write in
between yields the same surviving record set: the second load, applied to
the storage the first load left behind (pruned and rewritten), removes
nothing further. -/
theorem load_history_idempotent (s : Storage) (c : Int) :
    (load_article_history (load_article_history s c).2 c).1
      = (load_article_history s c).1 := by
  cases s with
  | missing => rfl
  | unreadable => rfl
  | corrupt => rfl
  | content m =>
    rw [load_content_snd, load_content_fst, load_content_fst, pruneHistory_idem]

/-! ## Claim C8 (confirmed): history load never errors -/

/-- Claim C8: `load_article_history` is total over every storage state —
whenever its `try` body raises (unreadable file, corrupt JSON), and also
when the file is simply missing, the caller receives the empty mapping
rather than an error. -/
theorem load_history_never_errors (s : Storage) (c : Int) :
    ((s = .missing ∨ s = .unreadable ∨ s = .corrupt) →
      (load_article_history s c).1 = [])
  ∧ ∀ e, load_history_body s c = .error e → (load_article_history s c).1 = [] := by
  constructor
  · rintro (rfl | rfl | rfl) <;> rfl
  · intro e he
    cases s with
    | missing => rfl
    | unreadable => rfl
    | corrupt => rfl
    | content m =>
      exfalso
      by_cases hc : (pruneHistory m c).length ≠ m.length <;>
        simp [load_history_body, hc] at he

/-- Witness for C8 at a concrete corrupt storage state. -/
theorem load_history_never_errors_witness :
    (load_article_history .corrupt 0).1 = [] :=
  (load_history_never_errors .corrupt 0).1 (Or.inr (Or.inr rfl))

/-! ## Claim C9 (confirmed): recording writes both keys and persists -/

/-- Claim C9: `add_to_history` writes exactly the two (distinct) keys
`title:...` and `url:...`, both mapped to the same current timestamp,
leaves every other entry of the freshly loaded (hence unexpired) history
untouched, and persists the updated mapping to storage within the same
call. -/
theorem add_to_history_spec (s : Storage) (a : Item) (now : Int) :
    lookupKey (add_to_history s a now).1 (titleKey a) = some (some now)
  ∧ lookupKey (add_to_history s a now).1 (urlKey a) = some (some now)
  ∧ titleKey a ≠ urlKey a
  ∧ (∀ k, k ≠ titleKey a → k ≠ urlKey a →
      lookupKey (add_to_history s a now).1 k
        = lookupKey (load_article_history s (now - HISTORY_DAYS * 86400)).1 k)
  ∧ (∀ k, containsKey (add_to_history s a now).1 k = true →
      containsKey (load_article_history s (now - HISTORY_DAYS * 86400)).1 k = true
      ∨ k = titleKey a ∨ k = urlKey a)
  ∧ (add_to_history s a now).2 = Storage.content (add_to_history s a now).1 := by
  have htu := titleKey_ne_urlKey a
  have h1 : (add_to_history s a now).1
      = insertKey (insertKey (load_article_history s (now - HISTORY_DAYS * 86400)).1
          (titleKey a) (some now)) (urlKey a) (some now) := rfl
  refine ⟨?_, ?_, htu, ?_, ?_, rfl⟩
  · rw [h1, lookupKey_insertKey_ne _ _ _ _ htu, lookupKey_insertKey_self]
  · rw [h1, lookupKey_insertKey_self]
  · intro k hkt hku
    rw [h1, lookupKey_insertKey_ne _ _ _ _ hku, lookupKey_insertKey_ne _ _ _ _ hkt]
  · intro k hk
    rw [h1] at hk
    rcases containsKey_insertKey _ _ _ _ hk with hk2 | rfl
    · rcases containsKey_insertKey _ _ _ _ hk2 with hk3 | rfl
      · exact Or.inl hk3
      · exact Or.inr (Or.inl rfl)
    · exact Or.inr (Or.inr rfl)

/-- Witness for C9: an unrelated key is unchanged by a concrete record. -/
theorem add_to_history_spec_witness :
    lookupKey (add_to_history .missing wPlainA 5).1 "zzz"
      = lookupKey (load_article_history .missing (5 - HISTORY_DAYS * 86400)).1 "zzz" :=
  (add_to_history_spec .missing wPlainA 5).2.2.2.1 "zzz" (by decide) (by decide)

/-! ## Claim C1 (corrected): graceful degradation of the AI wrappers -/

/-- Claim C1, counterexample: in `select_best_with_ai`
(internship_scraper), when the AI call itself throws, the outer exception
handler returns a copy of the FIRST internship of the list, not the
rule-based fallback selector's pick: on `[iSales, iDev]` the wrapper
returns `iSales` while `fallback_select_best` picks `iDev` (score 0
versus 30), and the two items differ in title, refuting the claim that
the wrapper's choice always agrees with the rule-based selector's. -/
theorem select_best_with_ai_counterexample :
    (select_best_with_ai true true (Except.error "boom") [iSales, iDev] 0).item
      = some iSales
  ∧ fallback_select_best [iSales, iDev] "internship" 0 = some iDev
  ∧ iSales.title ≠ iDev.title :=
  ⟨rfl, rfl, by decide⟩

/-- Claim C1 (amended): the property holds of the `ai_select_content`
wrapper (api_manager): for every non-empty candidate list, whenever the
AI call throws, the returned Selection Result carries exactly the title
and url of the item `fallback_select_best` picks on that list, labelled
`selection_method = "fallback_algorithm"` — and this holds whether or not
an API key or client was available. (`select_best_with_ai` in
internship_scraper instead returns the first item when the AI call itself
throws; it delegates to the rule-based selector only when no key is
configured or client construction fails.) -/
theorem ai_select_content_error_uses_fallback (av ck : Bool) (e t : String)
    (now : Int) (x : Item) (xs : List Item) :
    (ai_select_content av ck (Except.error e) (x :: xs) t now).title
      = Option.map (fun b => b.title) (fallback_select_best (x :: xs) t now)
  ∧ (ai_select_content av ck (Except.error e) (x :: xs) t now).url
      = Option.map (fun b => b.url) (fallback_select_best (x :: xs) t now)
  ∧ (ai_select_content av ck (Except.error e) (x :: xs) t now).selection_method
      = "fallback_algorithm" := by
  obtain ⟨b, hb⟩ := fallback_select_best_isSome x xs t now
  have hai : ai_select_content av ck (Except.error e) (x :: xs) t now
      = create_fallback_selection_result b t (x :: xs).length := by
    cases havck : av && ck <;>
      simp [ai_select_content, havck, hb]
  rw [hai, hb]
  exact ⟨rfl, rfl, rfl⟩
